import Mathlib

/-!
Verification of the scpp examples.

Shallow embedding of `examples/example2.cpp` (summation over a vector and over a
heap array) and `examples/example3.cpp` (the Animal / Dog / Cat hierarchy).

Conventions of the embedding:
* a C++ `int` is a mathematical integer in the range `INT_MIN .. INT_MAX`; the
  result of an `int` addition is the exact result reduced modulo `2^32` into that
  range (`wrapInt`);
* `std::cout` is the string of all characters written so far;
* the heap array of `main` lives in an explicit machine state that faults on a
  read outside a live block and on a release of a block that is not live.
-/

namespace Example2

/-! ## Machine integers -/

/-- Least value of a 32-bit `int`. -/
def INT_MIN : Int := -2147483648

/-- Greatest value of a 32-bit `int`. -/
def INT_MAX : Int := 2147483647

/-- The integer `z` is representable as an `int`. -/
def isInt (z : Int) : Prop := INT_MIN ≤ z ∧ z ≤ INT_MAX

instance (z : Int) : Decidable (isInt z) := by
  unfold isInt; infer_instance

/-- Value stored by an `int` operation whose exact result is `z`: the
representative of `z` modulo `2^32` in the signed 32-bit range. -/
def wrapInt (z : Int) : Int := (z + 2147483648) % 4294967296 - 2147483648

/-! ## `sum_of_elements` (example2.cpp, lines 5-11) -/

/-- The range-for loop `for (int number : numbers) sum += number;`, started with
the accumulator `sum` on the elements still to visit. -/
def sum_loop (sum : Int) : List Int → Int
  | [] => sum
  | number :: rest => sum_loop (wrapInt (sum + number)) rest

/-- The function `int sum_of_elements(const std::vector<int>& numbers)`. The
elements of a vector of `int` satisfy `isInt`; the theorems below that need no
bound on the elements are stated for every list. -/
def sum_of_elements (numbers : List Int) : Int :=
  sum_loop 0 numbers

/-! ## The output stream -/

/-- The insertion `os << s` of a string: `os` is the text written so far. -/
def put_string (os : String) (s : String) : String := os ++ s

/-- The insertion `os << n` of an `int`: its decimal digits, with a leading
minus sign when negative. -/
def put_int (os : String) (n : Int) : String := os ++ toString n

/-- The insertion `os << std::endl`: one newline character. -/
def endl (os : String) : String := os ++ "\n"

/-! ## The heap, instrumented -/

/-- What the allocator and the array accesses record, in program order. -/
inductive Event where
  /-- The expression `new int[n]` returned the block `p`. -/
  | acquire (p : Nat) (n : Nat)
  /-- The cell `i` of block `p` was read. -/
  | read (p : Nat) (i : Nat)
  /-- The statement `delete[]` released the block `p`. -/
  | release (p : Nat)
  deriving DecidableEq, Repr

/-- Misuse of the heap; C++ leaves each of these undefined. -/
inductive Fault where
  /-- A read from a block that is not live (never acquired, or released). -/
  | dead_read
  /-- A read past the end of a live block. -/
  | out_of_bounds
  /-- A `delete[]` of a block that is not live (double release). -/
  | dead_delete
  deriving DecidableEq, Repr

/-- The event is an acquisition (`new int[n]`). -/
def Event.is_acquire : Event → Bool
  | Event.acquire _ _ => true
  | _ => false

/-- The event is a release (`delete[]`). -/
def Event.is_release : Event → Bool
  | Event.release _ => true
  | _ => false

/-- State of a run of the program: the heap blocks by address (`some cells` while
live, `none` once released), the event log, and the text on `std::cout`. -/
structure Machine where
  heap : List (Option (List Int))
  events : List Event
  cout : String
  deriving DecidableEq, Repr

/-- State at process start: nothing allocated, nothing logged, nothing printed. -/
def Machine.start : Machine := ⟨[], [], ""⟩

/-- The expression `new int[n]{...}` with the initial cells `init`: a fresh block
at the next address; returns the pointer. -/
def new_int_array (init : List Int) (m : Machine) : Nat × Machine :=
  (m.heap.length,
    { m with heap := m.heap ++ [some init],
             events := m.events ++ [Event.acquire m.heap.length init.length] })

/-- The expression `array[i]` as an rvalue. -/
def read_array (array : Nat) (i : Nat) (m : Machine) : Except Fault (Int × Machine) :=
  match m.heap[array]? with
  | some (some cells) =>
    match cells[i]? with
    | some v => .ok (v, { m with events := m.events ++ [Event.read array i] })
    | none => .error Fault.out_of_bounds
  | _ => .error Fault.dead_read

/-- The statement `delete[] array;`. -/
def delete_array (array : Nat) (m : Machine) : Except Fault Machine :=
  match m.heap[array]? with
  | some (some _) =>
    .ok { m with heap := m.heap.set array none,
                 events := m.events ++ [Event.release array] }
  | _ => .error Fault.dead_delete

/-- The loop `for (int i = 0; i < 5; ++i) array_sum += array[i];` (lines 22-24),
at a point where the index is `i` and `n` iterations remain before the bound;
`main` enters it with `i = 0` and `n = 5`. -/
def array_loop (array : Nat) : Nat → Nat → Int → Machine → Except Fault (Int × Machine)
  | 0, _, array_sum, m => .ok (array_sum, m)
  | n + 1, i, array_sum, m =>
    match read_array array i m with
    | .error e => .error e
    | .ok (v, m1) => array_loop array n (i + 1) (wrapInt (array_sum + v)) m1

/-- The function `main` of example2.cpp (lines 13-31); returns the exit code. -/
def main (m0 : Machine) : Except Fault (Int × Machine) :=
  let numbers : List Int := [1, 2, 3, 4, 5]
  let sum := sum_of_elements numbers
  let m1 : Machine := { m0 with
    cout := endl (put_int (put_string m0.cout "The sum of the elements in the vector is: ") sum) }
  let (array, m2) := new_int_array [1, 2, 3, 4, 5] m1
  let array_sum : Int := 0
  match array_loop array 5 0 array_sum m2 with
  | .error e => .error e
  | .ok (array_sum, m3) =>
    let m4 : Machine := { m3 with
      cout := endl (put_int (put_string m3.cout "The sum of the elements in the array is: ") array_sum) }
    match delete_array array m4 with
    | .error e => .error e
    | .ok m5 => .ok (0, m5)

end Example2

namespace Example3

open Example2 (put_string endl)

/-- Dynamic type of an object of the hierarchy (`Animal` itself is abstract). -/
inductive Kind where
  | Dog
  | Cat
  deriving DecidableEq, Repr

/-- An object of class `Animal`: its dynamic type and the protected member
`name_`. -/
structure Animal where
  kind : Kind
  name_ : String
  deriving DecidableEq, Repr

/-- The constructor `Dog(const std::string& name) : Animal(name)`. -/
def Dog (name : String) : Animal := { kind := Kind.Dog, name_ := name }

/-- The constructor `Cat(const std::string& name) : Animal(name)`. -/
def Cat (name : String) : Animal := { kind := Kind.Cat, name_ := name }

/-- The call `std::make_unique<T>(name)` for `T` one of `Dog`, `Cat`. -/
def make_unique (T : Kind) (name : String) : Animal :=
  match T with
  | Kind.Dog => Dog name
  | Kind.Cat => Cat name

/-- The override `Dog::speak() const`, as a transformer of the object and of
`std::cout`. -/
def Dog.speak (self : Animal) (cout : String) : Animal × String :=
  (self, endl (put_string (put_string cout self.name_) " says: Woof!"))

/-- The override `Cat::speak() const`. -/
def Cat.speak (self : Animal) (cout : String) : Animal × String :=
  (self, endl (put_string (put_string cout self.name_) " says: Meow!"))

/-- The virtual call `p->speak()`: dispatch on the dynamic type. -/
def Animal.speak (self : Animal) (cout : String) : Animal × String :=
  match self.kind with
  | Kind.Dog => Dog.speak self cout
  | Kind.Cat => Cat.speak self cout

/-- The call `p->speak()` made `t` times in a row on the same object. -/
def speak_times : Nat → Animal → String → Animal × String
  | 0, self, cout => (self, cout)
  | t + 1, self, cout =>
    let (self1, cout1) := Animal.speak self cout
    speak_times t self1 cout1

/-- The function `main` of example3.cpp (lines 34-42) run on the output written so
far; returns the exit code and the output. -/
def main (cout : String) : Int × String :=
  let dog := make_unique Kind.Dog "Buddy"
  let cat := make_unique Kind.Cat "Whiskers"
  let (_, cout) := Animal.speak dog cout
  let (_, cout) := Animal.speak cat cout
  (0, cout)

end Example3

namespace Example2

/-! ## Arithmetic of `wrapInt` -/

theorem wrapInt_of_isInt {z : Int} (h : isInt z) : wrapInt z = z := by
  unfold isInt INT_MIN INT_MAX at h
  unfold wrapInt
  omega

theorem isInt_wrapInt (z : Int) : isInt (wrapInt z) := by
  unfold isInt INT_MIN INT_MAX wrapInt
  omega

theorem wrapInt_wrapInt_add (a b : Int) : wrapInt (wrapInt a + b) = wrapInt (a + b) := by
  unfold wrapInt
  omega

/-- The loop started at a wrapped accumulator returns the wrapped exact total. -/
theorem sum_loop_wrapInt (numbers : List Int) (a : Int) :
    sum_loop (wrapInt a) numbers = wrapInt (a + numbers.sum) := by
  induction numbers generalizing a with
  | nil => simp [sum_loop]
  | cons x rest ih =>
    simp only [sum_loop, List.sum_cons]
    rw [wrapInt_wrapInt_add, ih, add_assoc]

theorem sum_of_elements_eq_wrapInt (numbers : List Int) :
    sum_of_elements numbers = wrapInt numbers.sum := by
  have h := sum_loop_wrapInt numbers 0
  have h0 : wrapInt 0 = 0 := by decide
  rw [h0, zero_add] at h
  exact h

/-- The loop never leaves the exact total when every running total is an `int`. -/
theorem sum_loop_exact (numbers : List Int) (acc : Int)
    (h : ∀ k, k ≤ numbers.length → isInt (acc + (numbers.take k).sum)) :
    sum_loop acc numbers = acc + numbers.sum := by
  induction numbers generalizing acc with
  | nil => simp [sum_loop]
  | cons x rest ih =>
    simp only [sum_loop, List.sum_cons]
    have h1 : isInt (acc + x) := by
      have := h 1 (by simp)
      simpa using this
    rw [wrapInt_of_isInt h1, ih, add_assoc]
    intro k hk
    have := h (k + 1) (by simpa using hk)
    simpa [add_assoc] using this

/-- C1: for every finite sequence of integers whose running prefix sums (the sums
of the first `k` elements, for every `k` up to the length) are all representable
as an `int`, `sum_of_elements` returns the arithmetic sum of the elements. -/
theorem sum_of_elements_exact (S : List Int)
    (h : ∀ k, k ≤ S.length → isInt ((S.take k).sum)) :
    sum_of_elements S = S.sum := by
  have := sum_loop_exact S 0 (by simpa using h)
  simpa [sum_of_elements] using this

theorem sum_of_elements_exact_witness :
    (∀ k, k ≤ [3, -7, 2147483647].length → isInt ((([3, -7, 2147483647] : List Int).take k).sum)) ∧
    sum_of_elements [3, -7, 2147483647] = ([3, -7, 2147483647] : List Int).sum :=
  have h : ∀ k, k ≤ [3, -7, 2147483647].length →
      isInt ((([3, -7, 2147483647] : List Int).take k).sum) := by
    intro k hk
    simp only [List.length_cons, List.length_nil] at hk
    interval_cases k <;> decide
  ⟨h, sum_of_elements_exact [3, -7, 2147483647] h⟩

theorem sum_of_elements_reverse_all (S : List Int) :
    sum_of_elements S.reverse = sum_of_elements S := by
  rw [sum_of_elements_eq_wrapInt, sum_of_elements_eq_wrapInt, List.sum_reverse]

/-- C2: for every non-empty finite sequence of integers, summing the sequence and
summing its reverse give the same `int`. -/
theorem sum_of_elements_reverse (S : List Int) (_hne : S ≠ []) :
    sum_of_elements S = sum_of_elements S.reverse :=
  (sum_of_elements_reverse_all S).symm

theorem sum_of_elements_reverse_witness :
    ([2147483647, 1, -1] : List Int) ≠ [] ∧
    sum_of_elements [2147483647, 1, -1] = sum_of_elements ([2147483647, 1, -1] : List Int).reverse :=
  ⟨by decide, sum_of_elements_reverse [2147483647, 1, -1] (by decide)⟩

/-- C3: `sum_of_elements` applied to the empty sequence returns 0. -/
theorem sum_of_elements_nil : sum_of_elements [] = 0 := rfl

/-- C10: with 32-bit wraparound, `sum_of_elements` returns the exact sum of the
elements reduced modulo `2^32` into the signed 32-bit range: the result is an
`int`, it differs from the exact sum by a multiple of `2^32`, and it is `wrapInt`
of the exact sum, whatever the intermediate totals were. -/
theorem sum_of_elements_mod (S : List Int) :
    sum_of_elements S = wrapInt S.sum ∧
    isInt (sum_of_elements S) ∧
    (4294967296 : Int) ∣ (S.sum - sum_of_elements S) := by
  rw [sum_of_elements_eq_wrapInt]
  refine ⟨rfl, isInt_wrapInt _, ?_⟩
  unfold wrapInt
  omega

/-! ## The index loop over the heap array -/

/-- On a live block the loop reads the `n` cells from index `i` on, adds them as
`sum_loop` does, and changes nothing but the event log. -/
theorem array_loop_eq (array : Nat) (cells : List Int) (n : Nat) :
    ∀ (i : Nat) (acc : Int) (m : Machine),
      m.heap[array]? = some (some cells) → i + n ≤ cells.length →
      array_loop array n i acc m =
        .ok (sum_loop acc ((cells.drop i).take n),
          { m with events := m.events ++ (List.range' i n).map (Event.read array) }) := by
  induction n with
  | zero =>
    intro i acc m _ _
    simp [array_loop, sum_loop]
  | succ n ih =>
    intro i acc m hlive hle
    have hi : i < cells.length := by omega
    have hread : read_array array i m =
        .ok (cells[i], { m with events := m.events ++ [Event.read array i] }) := by
      simp [read_array, hlive, List.getElem?_eq_getElem hi]
    rw [array_loop, hread]
    simp only []
    rw [ih (i + 1) (wrapInt (acc + cells[i]))
      { m with events := m.events ++ [Event.read array i] } hlive (by omega),
      List.drop_eq_getElem_cons hi]
    simp [sum_loop, List.range'_succ]

/-- C5: the index loop of `main` over the buffer `new int[5]` initialised to
1, 2, 3, 4, 5 leaves `array_sum` equal to 15, from every machine state. -/
theorem array_loop_main_buffer (m : Machine) :
    (array_loop (new_int_array [1, 2, 3, 4, 5] m).1 5 0 0
      (new_int_array [1, 2, 3, 4, 5] m).2).map Prod.fst = .ok 15 := by
  rw [array_loop_eq _ [1, 2, 3, 4, 5] 5 0 0 _ (by simp [new_int_array]) (by simp)]
  rfl

/-- C6: for every live buffer of exactly 5 integers, the index loop
(`i` from 0 to 4, `array_sum += array[i]`, from `array_sum = 0`) ends without a
fault with the value `sum_of_elements` returns on the sequence of the 5 cells in
the same order; it leaves the heap and the output as they were and logs the five
reads. -/
theorem array_loop_eq_sum_of_elements (cells : List Int) (array : Nat) (m : Machine)
    (hlen : cells.length = 5) (hlive : m.heap[array]? = some (some cells)) :
    array_loop array 5 0 0 m =
      .ok (sum_of_elements cells,
        { m with events := m.events ++
            [Event.read array 0, Event.read array 1, Event.read array 2,
             Event.read array 3, Event.read array 4] }) := by
  rw [array_loop_eq array cells 5 0 0 m hlive (by omega)]
  have htake : (cells.drop 0).take 5 = cells := by
    rw [List.drop_zero, ← hlen, List.take_length]
  rw [htake]
  rfl

theorem array_loop_eq_sum_of_elements_witness :
    ([7, -2, 0, 2147483647, 1] : List Int).length = 5 ∧
    (new_int_array [7, -2, 0, 2147483647, 1] Machine.start).2.heap[0]? =
      some (some [7, -2, 0, 2147483647, 1]) ∧
    array_loop 0 5 0 0 (new_int_array [7, -2, 0, 2147483647, 1] Machine.start).2 =
      .ok (sum_of_elements [7, -2, 0, 2147483647, 1],
        { (new_int_array [7, -2, 0, 2147483647, 1] Machine.start).2 with
          events := (new_int_array [7, -2, 0, 2147483647, 1] Machine.start).2.events ++
            [Event.read 0 0, Event.read 0 1, Event.read 0 2,
             Event.read 0 3, Event.read 0 4] }) :=
  ⟨rfl, rfl, array_loop_eq_sum_of_elements [7, -2, 0, 2147483647, 1] 0
    (new_int_array [7, -2, 0, 2147483647, 1] Machine.start).2 rfl rfl⟩

/-! ## The whole of `main` -/

/-- Run of `main` from any machine state: it ends without a fault with exit code 0;
the new block is acquired, read five times, then released. -/
theorem example2_main_eq (m0 : Machine) :
    main m0 = .ok (0,
      { heap := m0.heap ++ [none],
        events := m0.events ++
          [Event.acquire m0.heap.length 5,
           Event.read m0.heap.length 0, Event.read m0.heap.length 1,
           Event.read m0.heap.length 2, Event.read m0.heap.length 3,
           Event.read m0.heap.length 4,
           Event.release m0.heap.length],
        cout := m0.cout ++ "The sum of the elements in the vector is: 15\n" ++
          "The sum of the elements in the array is: 15\n" }) := by
  unfold main
  simp only [new_int_array]
  rw [array_loop_eq _ [1, 2, 3, 4, 5] 5 0 0 _ (by simp) (by simp)]
  simp [delete_array, sum_loop, put_string, put_int, endl, sum_of_elements, wrapInt,
    List.range'_succ]
  have h15 : toString (15 : Int) = "15" := by decide
  rw [h15]
  simp only [String.append_assoc]
  congr 1

/-- C8: every run of `main` (from any machine state `m0`, the new block getting
the address `p = m0.heap.length`) ends without a fault on its single exit path
with exit code 0, and the events it logs are exactly: one acquisition of a block
of 5 cells, the five reads of that block, then one release of that block, the
release being the last event, after the last read. The block is not live at exit
and the rest of the heap is untouched, so nothing leaks; a second release or a
read after the release would have been a fault. -/
theorem main_buffer_lifecycle (m0 : Machine) :
    ∃ (m : Machine) (log : List Event),
      main m0 = .ok (0, m) ∧
      m.events = m0.events ++ log ∧
      log = [Event.acquire m0.heap.length 5,
             Event.read m0.heap.length 0, Event.read m0.heap.length 1,
             Event.read m0.heap.length 2, Event.read m0.heap.length 3,
             Event.read m0.heap.length 4,
             Event.release m0.heap.length] ∧
      log.countP Event.is_acquire = 1 ∧
      log.countP Event.is_release = 1 ∧
      log.getLast? = some (Event.release m0.heap.length) ∧
      m.heap = m0.heap ++ [none] ∧
      delete_array m0.heap.length m = .error Fault.dead_delete ∧
      read_array m0.heap.length 4 m = .error Fault.dead_read := by
  refine ⟨_, _, example2_main_eq m0, rfl, rfl, ?_, ?_, ?_, rfl, ?_, ?_⟩
  · simp [List.countP_cons, Event.is_acquire]
  · simp [List.countP_cons, Event.is_release]
  · simp
  · simp [delete_array]
  · simp [read_array]

/-! ## Concatenation -/

theorem wrapInt_add_wrapInt (a b : Int) :
    wrapInt (wrapInt a + wrapInt b) = wrapInt (a + b) := by
  unfold wrapInt
  omega

/-- C11: `sum_of_elements` sends concatenation to the `int` addition of the loop:
for all sequences `A` and `B` the value on `A ++ B` is the wrapped sum of the
values on `A` and on `B`; and on the one-element sequence of an `int` `x` the
value is `x`. -/
theorem sum_of_elements_append (A B : List Int) (x : Int) (hx : isInt x) :
    sum_of_elements (A ++ B) = wrapInt (sum_of_elements A + sum_of_elements B) ∧
    sum_of_elements [x] = x := by
  constructor
  · rw [sum_of_elements_eq_wrapInt, sum_of_elements_eq_wrapInt A,
      sum_of_elements_eq_wrapInt B, List.sum_append, wrapInt_add_wrapInt]
  · rw [sum_of_elements_eq_wrapInt, List.sum_singleton, wrapInt_of_isInt hx]

theorem sum_of_elements_append_witness :
    isInt (-2147483648) ∧
    sum_of_elements ([2147483647, 1] ++ [5, -9]) =
      wrapInt (sum_of_elements [2147483647, 1] + sum_of_elements [5, -9]) ∧
    sum_of_elements [-2147483648] = -2147483648 :=
  ⟨by decide, sum_of_elements_append [2147483647, 1] [5, -9] (-2147483648) (by decide)⟩

end Example2

namespace Example3

open Example2 (put_string endl)

/-! ## The speakers -/

theorem speak_Dog (n cout : String) :
    Animal.speak (Dog n) cout = (Dog n, cout ++ (n ++ " says: Woof!") ++ "\n") := by
  simp [Animal.speak, Dog, Dog.speak, put_string, endl, String.append_assoc]

theorem speak_Cat (n cout : String) :
    Animal.speak (Cat n) cout = (Cat n, cout ++ (n ++ " says: Meow!") ++ "\n") := by
  simp [Animal.speak, Cat, Cat.speak, put_string, endl, String.append_assoc]

theorem speak_times_fixed (a : Animal) (line : String)
    (h : ∀ cout, Animal.speak a cout = (a, cout ++ line ++ "\n")) (t : Nat) :
    ∀ cout, speak_times t a cout = (a, (fun out => out ++ line ++ "\n")^[t] cout) := by
  induction t with
  | zero => intro cout; rfl
  | succ t ih =>
    intro cout
    simp only [speak_times, h, ih, Function.iterate_succ, Function.comp_apply]

theorem example3_main_eq (cout : String) :
    main cout = (0, cout ++ "Buddy says: Woof!\n" ++ "Whiskers says: Meow!\n") := by
  simp only [main, make_unique, speak_Dog, speak_Cat, String.append_assoc]
  rfl

/-- C4: for every name `n` and whatever was printed before, `speak()` on a Dog
constructed with `n` appends exactly the line `n says: Woof!` (ended by the
newline of `std::endl`), and on a Cat exactly the line `n says: Meow!`; on a fresh
output the Dog made with "Buddy" prints the line `Buddy says: Woof!` and the Cat
made with "Whiskers" the line `Whiskers says: Meow!`. -/
theorem speak_prints (n cout : String) :
    (Animal.speak (Dog n) cout).2 = cout ++ (n ++ " says: Woof!") ++ "\n" ∧
    (Animal.speak (Cat n) cout).2 = cout ++ (n ++ " says: Meow!") ++ "\n" ∧
    (Animal.speak (make_unique Kind.Dog "Buddy") "").2 = "Buddy says: Woof!" ++ "\n" ∧
    (Animal.speak (make_unique Kind.Cat "Whiskers") "").2 = "Whiskers says: Meow!" ++ "\n" := by
  refine ⟨?_, ?_, rfl, rfl⟩
  · rw [speak_Dog]
  · rw [speak_Cat]

/-- C9: for every kind and every name `n`: the constructor stores `n` in `name_`;
`speak()` returns the object unchanged; and `t` calls in a row on the same object
leave it unchanged and append `t` times the same line, which starts with `n`
(`n says: Woof!` for a Dog, `n says: Meow!` for a Cat), whatever else was printed
before. -/
theorem speaker_immutable (n cout : String) (t : Nat) :
    (∀ T, (make_unique T n).name_ = n) ∧
    (∀ T, (Animal.speak (make_unique T n) cout).1 = make_unique T n) ∧
    speak_times t (make_unique Kind.Dog n) cout =
      (make_unique Kind.Dog n, (fun out => out ++ (n ++ " says: Woof!") ++ "\n")^[t] cout) ∧
    speak_times t (make_unique Kind.Cat n) cout =
      (make_unique Kind.Cat n, (fun out => out ++ (n ++ " says: Meow!") ++ "\n")^[t] cout) := by
  refine ⟨?_, ?_, ?_, ?_⟩
  · intro T; cases T <;> rfl
  · intro T; cases T <;> rfl
  · exact speak_times_fixed _ _ (fun c => speak_Dog n c) t cout
  · exact speak_times_fixed _ _ (fun c => speak_Cat n c) t cout

/-- C7: running the `main` of example2 from process start and then the `main`
of example3 on the same output: each returns exit code 0 and the output is
exactly the four lines, in this order, each ended by a newline. -/
theorem end_to_end_output :
    ∃ m : Example2.Machine,
      Example2.main Example2.Machine.start = .ok (0, m) ∧
      main m.cout = (0, String.join (List.map (fun l => l ++ "\n")
        ["The sum of the elements in the vector is: 15",
         "The sum of the elements in the array is: 15",
         "Buddy says: Woof!",
         "Whiskers says: Meow!"])) :=
  ⟨_, rfl, rfl⟩

/-! ## The line determines the speaker -/

/-- Two printed lines with phrases of the same length are equal only when the
names are equal and the phrases are equal. -/
theorem line_inj (cout n1 n2 s1 s2 : String) (hlen : s1.length = s2.length)
    (h : cout ++ (n1 ++ s1) ++ "\n" = cout ++ (n2 ++ s2) ++ "\n") :
    n1 = n2 ∧ s1 = s2 := by
  have hd := congrArg String.data h
  simp only [String.data_append, List.append_assoc, List.append_cancel_left_eq] at hd
  rw [← List.append_assoc, ← List.append_assoc, List.append_cancel_right_eq] at hd
  have := List.append_inj' hd hlen
  exact ⟨String.ext this.1, String.ext this.2⟩

/-- C12: the printed line determines the speaker: if `speak()` on an object of
kind `k1` made with the name `n1` and `speak()` on one of kind `k2` made with `n2`
print the same text after the same earlier output, then `k1 = k2` and `n1 = n2`;
and a Dog and a Cat never print the same line, whatever their names. -/
theorem speak_line_determines (k1 k2 : Kind) (n1 n2 cout : String) :
    ((Animal.speak (make_unique k1 n1) cout).2 = (Animal.speak (make_unique k2 n2) cout).2 →
      k1 = k2 ∧ n1 = n2) ∧
    (Animal.speak (Dog n1) cout).2 ≠ (Animal.speak (Cat n2) cout).2 := by
  have hne : (" says: Woof!" : String) ≠ " says: Meow!" := by decide
  constructor
  · intro h
    cases k1 <;> cases k2 <;>
      simp only [make_unique, speak_Dog, speak_Cat] at h
    · exact ⟨rfl, (line_inj _ _ _ _ _ (by rfl) h).1⟩
    · exact absurd (line_inj _ _ _ _ _ (by rfl) h).2 hne
    · exact absurd (line_inj _ _ _ _ _ (by rfl) h).2.symm hne
    · exact ⟨rfl, (line_inj _ _ _ _ _ (by rfl) h).1⟩
  · intro h
    simp only [speak_Dog, speak_Cat] at h
    exact absurd (line_inj _ _ _ _ _ (by rfl) h).2 hne

theorem speak_line_determines_witness :
    (Animal.speak (make_unique Kind.Cat "Tom") "x\n").2 =
      (Animal.speak (make_unique Kind.Cat "Tom") "x\n").2 ∧
    (Kind.Cat = Kind.Cat ∧ "Tom" = "Tom") ∧
    (Animal.speak (Dog "Tom") "x\n").2 ≠ (Animal.speak (Cat "Tom") "x\n").2 :=
  ⟨rfl, (speak_line_determines Kind.Cat Kind.Cat "Tom" "Tom" "x\n").1 rfl,
    (speak_line_determines Kind.Cat Kind.Cat "Tom" "Tom" "x\n").2⟩

end Example3
